import Mathlib

/-!
A shallow embedding of `weburg-playlist-loader.py`: data model
(`SocketAddress`, `Channel`, `ChannelGroup`), the M3U renderer
(`write_playlist`), the XSPF track/group parsers
(`parse_channels_by_ids`, `parse_channel_groups`) and the orchestrator
(`mainModel`).  Python exceptions are modelled with `Except PyErr`;
Python `dict` insertion/lookup with an association list with in-place
replacement; Python `int(...)` and `str.strip()` with `pyInt` and
`pyStrip`.
-/

namespace Weburg

/-- The characters stripped by Python `str.strip()` with no argument
(space, tab, newline, carriage return, vertical tab, form feed). -/
def isPyWs (c : Char) : Bool :=
  c = ' ' || c = '\t' || c = '\n' || c = '\r' || c = Char.ofNat 11 || c = Char.ofNat 12

/-- `str.strip()` on a character list: drop leading and trailing whitespace. -/
def pyStripList (l : List Char) : List Char :=
  ((l.dropWhile isPyWs).reverse.dropWhile isPyWs).reverse

/-- Model of Python `str.strip()`. -/
def pyStrip (s : String) : String := ⟨pyStripList s.data⟩

/-- Decimal digit run to a number: `some` iff nonempty and all digits. -/
def digitsToNat (l : List Char) : Option Nat :=
  if l ≠ [] ∧ l.all (·.isDigit) then
    some (l.foldl (fun n c => 10 * n + (c.toNat - 48)) 0)
  else
    none

/-- Model of Python 3 `int(s)` on a character list: surrounding whitespace
is ignored, an optional single `+`/`-` sign precedes a nonempty digit run;
anything else raises `ValueError` (here: `none`). -/
def pyIntList (l : List Char) : Option Int :=
  match pyStripList l with
  | '+' :: ds => (digitsToNat ds).map Int.ofNat
  | '-' :: ds => (digitsToNat ds).map (fun n => -(n : Int))
  | ds => (digitsToNat ds).map Int.ofNat

/-- Model of Python 3 `int(s)`. -/
def pyInt (s : String) : Option Int := pyIntList s.data

/-- Split a character list at the first occurrence of `c`
(model of `s.split(c, 1)` when it yields two parts). -/
def splitFirst (c : Char) : List Char → Option (List Char × List Char)
  | [] => none
  | x :: xs =>
    if x = c then some ([], xs)
    else (splitFirst c xs).map (fun p => (x :: p.1, p.2))

/-- `SocketAddress` from the source: a host string and an integer port. -/
structure SocketAddress where
  host : String
  port : Int
deriving DecidableEq, Repr

/-- `SocketAddress.__str__`: `"{}:{}".format(self.host, self.port)`. -/
def SocketAddress.str (a : SocketAddress) : String :=
  a.host ++ ":" ++ toString a.port

/-- `Channel` from the source.  In the Python code the constructor
arguments `channel_id`, `name` and `address` can each be `None`
(the parser's local variables start as `None` and are only assigned when
the corresponding sub-element is present), so every field is an `Option`. -/
structure Channel where
  id : Option Int
  name : Option String
  address : Option SocketAddress
deriving DecidableEq, Repr

/-- `ChannelGroup` from the source: group title plus member channels. -/
structure ChannelGroup where
  name : String
  channels : List Channel
deriving DecidableEq, Repr

/-- `PlaylistType` from the source. -/
inductive PlaylistType
  | MULTICAST
  | UNICAST
deriving DecidableEq, Repr

/-- Python `"{}".format(x)` on an optional string (`None` prints as `"None"`). -/
def pyStrOfOptStr : Option String → String
  | none => "None"
  | some s => s

/-- Python `"{}".format(x)` on an optional address (`None` prints as
`"None"`, an address via `SocketAddress.__str__`). -/
def pyStrOfOptAddr : Option SocketAddress → String
  | none => "None"
  | some a => a.str

/-- The comparison behind `sorted(groups, key=attrgetter("name"))`:
group names compared as strings. -/
def groupLe (a b : ChannelGroup) : Bool := decide (a.name ≤ b.name)

/-- Ordering of optional channel names for
`sorted(group.channels, key=attrgetter("name"))`.  Python would raise
`TypeError` when comparing `None` with a `str`; the `none` rows below are
an arbitrary totalisation, and every theorem that involves sorting of
channels only draws conclusions in which the `none` rows are irrelevant
(all names present, or equal keys). -/
def optStrLe : Option String → Option String → Bool
  | none, _ => true
  | some _, none => false
  | some a, some b => decide (a ≤ b)

/-- The comparison behind `sorted(group.channels, key=attrgetter("name"))`. -/
def channelLe (a b : Channel) : Bool := optStrLe a.name b.name

/-- `sorted(groups, key=attrgetter("name"))`: Python's `sorted` is a
stable sort returning a fresh list. -/
def sortGroups (gs : List ChannelGroup) : List ChannelGroup :=
  gs.mergeSort groupLe

/-- `sorted(group.channels, key=attrgetter("name"))`. -/
def sortChannels (cs : List Channel) : List Channel :=
  cs.mergeSort channelLe

/-- Group iteration order of the renderer's outer loop. -/
def orderedGroups (gs : List ChannelGroup) (sortByName : Bool) : List ChannelGroup :=
  if sortByName then sortGroups gs else gs

/-- Channel iteration order of the renderer's inner loop. -/
def orderedChannels (cs : List Channel) (sortByName : Bool) : List Channel :=
  if sortByName then sortChannels cs else cs

/-- The `#EXTINF` line written for one (group, channel) pair. -/
def extinfLine (g : ChannelGroup) (c : Channel) : String :=
  "#EXTINF:0 group-title=\"" ++ g.name ++ "\"," ++ pyStrOfOptStr c.name

/-- The target-address line written for one channel. -/
def targetLine (pt : PlaylistType) (proxy : SocketAddress) (c : Channel) : String :=
  match pt with
  | .UNICAST => "http://" ++ proxy.str ++ "/udp/" ++ pyStrOfOptAddr c.address
  | .MULTICAST => "udp://@" ++ pyStrOfOptAddr c.address

/-- The two writes of the renderer's inner loop body for one channel. -/
def renderChannel (pt : PlaylistType) (proxy : SocketAddress)
    (g : ChannelGroup) (c : Channel) : String :=
  extinfLine g c ++ "\n" ++ (targetLine pt proxy c ++ "\n")

/-- The renderer's inner loop: concatenation of the writes for each
channel of one group, in iteration order. -/
def renderChannels (pt : PlaylistType) (proxy : SocketAddress)
    (g : ChannelGroup) : List Channel → String
  | [] => ""
  | c :: cs => renderChannel pt proxy g c ++ renderChannels pt proxy g cs

/-- The renderer's outer loop: concatenation of the writes for each
group, in iteration order. -/
def renderGroups (pt : PlaylistType) (proxy : SocketAddress) (s : Bool) :
    List ChannelGroup → String
  | [] => ""
  | g :: gs =>
    renderChannels pt proxy g (orderedChannels g.channels s) ++
      renderGroups pt proxy s gs

/-- `write_playlist` from the source, as the file content it writes: the
header write, then per (group, channel) pair in loop order an `#EXTINF`
line and a target line.  (The `else: raise` branch of the source is
unrepresentable here because `PlaylistType` has exactly two cases.) -/
def write_playlist (pt : PlaylistType) (groups : List ChannelGroup)
    (proxy_address : SocketAddress) (sort_by_name : Bool) : String :=
  "#EXTM3U\n" ++ renderGroups pt proxy_address sort_by_name
    (orderedGroups groups sort_by_name)

/-- Concatenate lines, terminating each with a newline. -/
def joinLines : List String → String
  | [] => ""
  | l :: ls => l ++ "\n" ++ joinLines ls

/-- The content written by `write_playlist`, as the list of its lines. -/
def playlistLines (pt : PlaylistType) (groups : List ChannelGroup)
    (proxy : SocketAddress) (sortByName : Bool) : List String :=
  "#EXTM3U" :: (orderedGroups groups sortByName).flatMap (fun g =>
    (orderedChannels g.channels sortByName).flatMap (fun c =>
      [extinfLine g c, targetLine pt proxy c]))

/-- State-passing rendering of `write_playlist`: the result is the file
content together with the value of the caller's `groups` binding after
the call.  The source builds its iteration order with Python's `sorted`,
which allocates a fresh list and never mutates its argument, and it
never assigns to `group.channels` or to any `Channel` field, so the
post-call model is the untouched input. -/
def write_playlist_st (pt : PlaylistType) (groups : List ChannelGroup)
    (proxy : SocketAddress) (s : Bool) : String × List ChannelGroup :=
  (write_playlist pt groups proxy s, groups)

/-- The Python exceptions this program can raise during parsing. -/
inductive PyErr
  | indexError
  | valueError (msg : String)
  | keyError (key : Option Int)
deriving DecidableEq, Repr

/-- The `location` handling of `parse_channels_by_ids`:
`trackSubElem.text.split("@", 1)[1]` (IndexError when there is no `@`),
then `address_str.split(":", 1)` unpacked into two names (ValueError when
there is no `:`), then `int(port_str)` (ValueError when the port text is
not an integer literal). -/
def parseLocation (text : String) : Except PyErr SocketAddress :=
  match splitFirst '@' text.data with
  | none => .error .indexError
  | some (_, rest) =>
    match splitFirst ':' rest with
    | none => .error (.valueError "not enough values to unpack")
    | some (host, portStr) =>
      match pyIntList portStr with
      | none => .error (.valueError "invalid literal for int")
      | some n => .ok ⟨⟨host⟩, n⟩

/-- A sub-element of a `track` element, by local tag name after the
namespace split (`title`, `location`, `extension`, anything else).  An
`extension` carries the text of its `{vlc}id` child when that child is
present. -/
inductive TrackSub
  | title (text : String)
  | location (text : String)
  | extension (idText : Option String)
  | other
deriving DecidableEq, Repr

/-- A `track` element: its sub-elements in document order. -/
structure Track where
  subs : List TrackSub
deriving DecidableEq, Repr

/-- One iteration of the inner loop of `parse_channels_by_ids` over the
local state `(channel_id, channel_name, address)`, all starting `None`. -/
def stepTrackSub (st : Option Int × Option String × Option SocketAddress)
    (sub : TrackSub) :
    Except PyErr (Option Int × Option String × Option SocketAddress) :=
  match sub with
  | .title t => .ok (st.1, some (pyStrip t), st.2.2)
  | .location t =>
    match parseLocation t with
    | .error e => .error e
    | .ok a => .ok (st.1, st.2.1, some a)
  | .extension idText =>
    match idText with
    | none => .ok st
    | some t =>
      match pyInt t with
      | none => .error (.valueError "invalid literal for int")
      | some n => .ok (some n, st.2.1, st.2.2)
  | .other => .ok st

/-- The per-track body of `parse_channels_by_ids`: run the sub-element
loop, then build `Channel(channel_id, channel_name, address)` keyed by
`channel_id`. -/
def parseTrack (t : Track) : Except PyErr (Option Int × Channel) := do
  let st ← t.subs.foldlM stepTrackSub (none, none, none)
  .ok (st.1, ⟨st.1, st.2.1, st.2.2⟩)

/-- Python `dict` as an association list: `d[k] = v` replaces the value
of an existing key in place and otherwise appends the new entry. -/
def dictInsert (k : Option Int) (v : Channel) :
    List (Option Int × Channel) → List (Option Int × Channel)
  | [] => [(k, v)]
  | (k', v') :: rest =>
    if k' = k then (k, v) :: rest else (k', v') :: dictInsert k v rest

/-- Python `dict` lookup on the association list. -/
def dictLookup (k : Option Int) : List (Option Int × Channel) → Option Channel
  | [] => none
  | (k', v) :: rest => if k' = k then some v else dictLookup k rest

/-- `parse_channels_by_ids` from the source: iterate the tracks in
document order, parse each, and insert
`channels_by_ids[channel_id] = Channel(...)`. -/
def parse_channels_by_ids (tracks : List Track) :
    Except PyErr (List (Option Int × Channel)) :=
  tracks.foldlM (fun d t => do
    let kc ← parseTrack t
    .ok (dictInsert kc.1 kc.2 d)) []

/-- A membership entry of a group node: its `tid` attribute text. -/
structure GroupItemElem where
  tid : String
deriving DecidableEq, Repr

/-- A `{vlc}node` group element: its `title` attribute and its child
membership entries in document order. -/
structure GroupElem where
  title : String
  items : List GroupItemElem
deriving DecidableEq, Repr

/-- One membership entry of `parse_channel_groups`:
`int(groupItemElem.attrib["tid"])` (ValueError on a non-integer) followed
by `channels_by_ids[channel_id]` (KeyError on a missing key). -/
def resolveItem (channels_by_ids : List (Option Int × Channel))
    (it : GroupItemElem) : Except PyErr Channel :=
  match pyInt it.tid with
  | none => .error (.valueError "invalid literal for int")
  | some n =>
    match dictLookup (some n) channels_by_ids with
    | none => .error (.keyError (some n))
    | some c => .ok c

/-- The per-group body of `parse_channel_groups`: trim the title and
resolve every membership entry in order. -/
def parseGroupElem (channels_by_ids : List (Option Int × Channel))
    (ge : GroupElem) : Except PyErr ChannelGroup := do
  let cs ← ge.items.mapM (resolveItem channels_by_ids)
  .ok ⟨pyStrip ge.title, cs⟩

/-- `parse_channel_groups` from the source. -/
def parse_channel_groups (groupElems : List GroupElem)
    (channels_by_ids : List (Option Int × Channel)) :
    Except PyErr (List ChannelGroup) :=
  groupElems.mapM (parseGroupElem channels_by_ids)

/-- The parsed source document: its `trackList/track` elements and its
`extension/{vlc}node` group elements, in document order. -/
structure Doc where
  tracks : List Track
  groupElems : List GroupElem
deriving DecidableEq, Repr

/-- `main` from the source, after the fetch: build the catalog, build the
groups, then write the multicast and the unicast playlist.  The `.ok`
payload lists the files written as (name, content) pairs in write order;
`.error` means the run aborted at the failing stage, before any file was
created. -/
def mainModel (doc : Doc) (host : String) (port : Int)
    (multicastName unicastName : String) (sortByName : Bool) :
    Except PyErr (List (String × String)) := do
  let channels_by_ids ← parse_channels_by_ids doc.tracks
  let groups ← parse_channel_groups doc.groupElems channels_by_ids
  let proxy_address : SocketAddress := ⟨host, port⟩
  .ok [(multicastName, write_playlist .MULTICAST groups proxy_address sortByName),
       (unicastName, write_playlist .UNICAST groups proxy_address sortByName)]

/-! ### Helper lemmas -/

theorem joinLines_append (a b : List String) :
    joinLines (a ++ b) = joinLines a ++ joinLines b := by
  induction a with
  | nil => simp [joinLines]
  | cons x t ih => simp [joinLines, ih, String.append_assoc]

theorem renderChannels_eq_joinLines (pt : PlaylistType) (proxy : SocketAddress)
    (g : ChannelGroup) (cs : List Channel) :
    renderChannels pt proxy g cs
      = joinLines (cs.flatMap fun c => [extinfLine g c, targetLine pt proxy c]) := by
  induction cs with
  | nil => rfl
  | cons c t ih =>
    simp only [renderChannels, List.flatMap_cons, joinLines_append, ih,
      renderChannel, joinLines, String.append_assoc, String.append_empty,
      List.flatMap_def, List.nil_append]
    rfl

theorem renderGroups_eq_joinLines (pt : PlaylistType) (proxy : SocketAddress)
    (s : Bool) (gs : List ChannelGroup) :
    renderGroups pt proxy s gs
      = joinLines (gs.flatMap fun g =>
          (orderedChannels g.channels s).flatMap fun c =>
            [extinfLine g c, targetLine pt proxy c]) := by
  induction gs with
  | nil => rfl
  | cons g t ih =>
    simp only [renderGroups, List.flatMap_cons, joinLines_append, ih,
      renderChannels_eq_joinLines]

theorem write_playlist_eq_joinLines (pt : PlaylistType)
    (groups : List ChannelGroup) (proxy : SocketAddress) (s : Bool) :
    write_playlist pt groups proxy s = joinLines (playlistLines pt groups proxy s) := by
  simp only [write_playlist, playlistLines, joinLines,
    renderGroups_eq_joinLines]
  rfl

theorem mem_of_mem_orderedGroups {g : ChannelGroup} {gs : List ChannelGroup}
    {s : Bool} (h : g ∈ orderedGroups gs s) : g ∈ gs := by
  unfold orderedGroups at h
  split at h
  · exact (List.mem_mergeSort).mp h
  · exact h

theorem mem_of_mem_orderedChannels {c : Channel} {cs : List Channel}
    {s : Bool} (h : c ∈ orderedChannels cs s) : c ∈ cs := by
  unfold orderedChannels at h
  split at h
  · exact (List.mem_mergeSort).mp h
  · exact h

/-! ### Claims about the renderer -/

/-- C2: for every group list, proxy address and sort flag, the MULTICAST
render writes, for each (group, channel) pair, a target line exactly
`udp://@<host>:<port>` where `<host>:<port>` is the stringification of
that channel's address.  (The hypothesis restricts to models of the
spec's data model, in which every channel carries an address; the file
content decomposes into `playlistLines`, whose target entry for each
pair is exactly the claimed string.) -/
theorem multicast_render_target_lines (groups : List ChannelGroup)
    (proxy : SocketAddress) (sortByName : Bool)
    (haddr : ∀ g ∈ groups, ∀ c ∈ g.channels, (c.address).isSome) :
    write_playlist .MULTICAST groups proxy sortByName
      = joinLines (playlistLines .MULTICAST groups proxy sortByName) ∧
    playlistLines .MULTICAST groups proxy sortByName
      = "#EXTM3U" :: (orderedGroups groups sortByName).flatMap (fun g =>
          (orderedChannels g.channels sortByName).flatMap fun c =>
            [extinfLine g c, targetLine .MULTICAST proxy c]) ∧
    ∀ g ∈ orderedGroups groups sortByName,
      ∀ c ∈ orderedChannels g.channels sortByName,
        ∃ a, c.address = some a ∧
          targetLine .MULTICAST proxy c
            = "udp://@" ++ (a.host ++ ":" ++ toString a.port) := by
  refine ⟨write_playlist_eq_joinLines _ _ _ _, rfl, ?_⟩
  intro g hg c hc
  have hc' := haddr g (mem_of_mem_orderedGroups hg) c (mem_of_mem_orderedChannels hc)
  obtain ⟨a, ha⟩ := Option.isSome_iff_exists.mp hc'
  exact ⟨a, ha, by simp [targetLine, pyStrOfOptAddr, ha, SocketAddress.str]⟩

/-- Witness for C2 at a concrete one-group, one-channel model. -/
theorem multicast_render_target_lines_witness :
    ∃ a, (Channel.mk (some 1) (some "X") (some ⟨"239.1.1.1", 1234⟩)).address = some a ∧
      targetLine .MULTICAST ⟨"p", 80⟩ (Channel.mk (some 1) (some "X") (some ⟨"239.1.1.1", 1234⟩))
        = "udp://@" ++ (a.host ++ ":" ++ toString a.port) :=
  (multicast_render_target_lines
      [⟨"G", [Channel.mk (some 1) (some "X") (some ⟨"239.1.1.1", 1234⟩)]⟩]
      ⟨"p", 80⟩ false (by decide)).2.2
    ⟨"G", [Channel.mk (some 1) (some "X") (some ⟨"239.1.1.1", 1234⟩)]⟩ (by decide)
    (Channel.mk (some 1) (some "X") (some ⟨"239.1.1.1", 1234⟩)) (by decide)

/-- C3: for every group list, proxy address and sort flag, the UNICAST
render writes, for each (group, channel) pair, a target line exactly
`http://<proxyHost>:<proxyPort>/udp/<host>:<port>`, where the proxy part
is the stringification of the proxy address and `<host>:<port>` that of
the channel's address. -/
theorem unicast_render_target_lines (groups : List ChannelGroup)
    (proxy : SocketAddress) (sortByName : Bool)
    (haddr : ∀ g ∈ groups, ∀ c ∈ g.channels, (c.address).isSome) :
    write_playlist .UNICAST groups proxy sortByName
      = joinLines (playlistLines .UNICAST groups proxy sortByName) ∧
    playlistLines .UNICAST groups proxy sortByName
      = "#EXTM3U" :: (orderedGroups groups sortByName).flatMap (fun g =>
          (orderedChannels g.channels sortByName).flatMap fun c =>
            [extinfLine g c, targetLine .UNICAST proxy c]) ∧
    ∀ g ∈ orderedGroups groups sortByName,
      ∀ c ∈ orderedChannels g.channels sortByName,
        ∃ a, c.address = some a ∧
          targetLine .UNICAST proxy c
            = "http://" ++ (proxy.host ++ ":" ++ toString proxy.port)
                ++ "/udp/" ++ (a.host ++ ":" ++ toString a.port) := by
  refine ⟨write_playlist_eq_joinLines _ _ _ _, rfl, ?_⟩
  intro g hg c hc
  have hc' := haddr g (mem_of_mem_orderedGroups hg) c (mem_of_mem_orderedChannels hc)
  obtain ⟨a, ha⟩ := Option.isSome_iff_exists.mp hc'
  refine ⟨a, ha, ?_⟩
  simp [targetLine, pyStrOfOptAddr, ha, SocketAddress.str, String.append_assoc]

/-- Witness for C3 at a concrete one-group, one-channel model. -/
theorem unicast_render_target_lines_witness :
    ∃ a, (Channel.mk (some 1) (some "X") (some ⟨"239.1.1.1", 1234⟩)).address = some a ∧
      targetLine .UNICAST ⟨"p", 80⟩ (Channel.mk (some 1) (some "X") (some ⟨"239.1.1.1", 1234⟩))
        = "http://" ++ ("p" ++ ":" ++ toString (80 : Int))
            ++ "/udp/" ++ (a.host ++ ":" ++ toString a.port) :=
  (unicast_render_target_lines
      [⟨"G", [Channel.mk (some 1) (some "X") (some ⟨"239.1.1.1", 1234⟩)]⟩]
      ⟨"p", 80⟩ false (by decide)).2.2
    ⟨"G", [Channel.mk (some 1) (some "X") (some ⟨"239.1.1.1", 1234⟩)]⟩ (by decide)
    (Channel.mk (some 1) (some "X") (some ⟨"239.1.1.1", 1234⟩)) (by decide)

/-- C5: rendering is deterministic — it is a pure function of
(groups, mode, proxyAddress, sortByName), so two invocations on the same
arguments are byte-identical; moreover with `sortByName = false` the
emitted line order is exactly the input order of the model (no internal
lookup structure is consulted: the renderer only ever iterates the given
lists). -/
theorem render_deterministic (pt : PlaylistType) (groups : List ChannelGroup)
    (proxy : SocketAddress) :
    (∀ s : Bool, write_playlist pt groups proxy s = write_playlist pt groups proxy s) ∧
    write_playlist pt groups proxy false = write_playlist pt groups proxy false ∧
    playlistLines pt groups proxy false
      = "#EXTM3U" :: groups.flatMap (fun g =>
          g.channels.flatMap fun c => [extinfLine g c, targetLine pt proxy c]) := by
  refine ⟨fun _ => rfl, rfl, ?_⟩
  simp [playlistLines, orderedGroups, orderedChannels]

/-- C9: rendering never mutates the model.  `write_playlist_st` pairs the
output with the caller's `groups` binding after the call (the source
sorts with Python's non-mutating `sorted` and assigns to no field): the
post-call model equals the input exactly, and a subsequent unsorted
render of that post-call model still emits the original input order. -/
theorem render_no_mutation (pt : PlaylistType) (groups : List ChannelGroup)
    (proxy : SocketAddress) :
    (∀ s : Bool, (write_playlist_st pt groups proxy s).2 = groups) ∧
    (∀ s : Bool, (write_playlist_st pt groups proxy s).1 = write_playlist pt groups proxy s) ∧
    playlistLines pt ((write_playlist_st pt groups proxy true).2) proxy false
      = "#EXTM3U" :: groups.flatMap (fun g =>
          g.channels.flatMap fun c => [extinfLine g c, targetLine pt proxy c]) := by
  refine ⟨fun _ => rfl, fun _ => rfl, ?_⟩
  simp [write_playlist_st, playlistLines, orderedGroups, orderedChannels]

theorem groupLe_trans : ∀ a b c : ChannelGroup,
    groupLe a b → groupLe b c → groupLe a c := by
  intro a b c h1 h2
  simp only [groupLe, decide_eq_true_eq] at *
  exact le_trans h1 h2

theorem groupLe_total : ∀ a b : ChannelGroup, groupLe a b || groupLe b a := by
  intro a b
  simp only [groupLe, Bool.or_eq_true, decide_eq_true_eq]
  exact le_total a.name b.name

theorem optStrLe_trans : ∀ a b c : Option String,
    optStrLe a b → optStrLe b c → optStrLe a c := by
  intro a b c h1 h2
  cases a with
  | none => rfl
  | some x =>
    cases b with
    | none => simp [optStrLe] at h1
    | some y =>
      cases c with
      | none => simp [optStrLe] at h2
      | some z =>
        simp only [optStrLe, decide_eq_true_eq] at *
        exact le_trans h1 h2

theorem optStrLe_total : ∀ a b : Option String, optStrLe a b || optStrLe b a := by
  intro a b
  cases a with
  | none => simp [optStrLe]
  | some x =>
    cases b with
    | none => simp [optStrLe]
    | some y =>
      simp only [optStrLe, Bool.or_eq_true, decide_eq_true_eq]
      exact le_total x y

theorem channelLe_trans : ∀ a b c : Channel,
    channelLe a b → channelLe b c → channelLe a c := by
  intro a b c h1 h2
  exact optStrLe_trans a.name b.name c.name h1 h2

theorem channelLe_total : ∀ a b : Channel, channelLe a b || channelLe b a := by
  intro a b
  exact optStrLe_total a.name b.name

/-- Generic stability corollary of `sublist_mergeSort`: a filter whose
kept elements are pairwise `le`-related is untouched by the sort. -/
theorem filter_mergeSort_of_pairwise {α : Type} (le : α → α → Bool)
    (trans : ∀ a b c : α, le a b → le b c → le a c)
    (total : ∀ a b : α, le a b || le b a)
    (p : α → Bool) (l : List α)
    (hp : ∀ a ∈ l.filter p, ∀ b ∈ l.filter p, le a b) :
    (l.mergeSort le).filter p = l.filter p := by
  have hpw : (l.filter p).Pairwise (fun a b => le a b = true) :=
    List.pairwise_of_forall_mem_list hp
  have hsub : List.Sublist (l.filter p) (l.mergeSort le) :=
    List.sublist_mergeSort trans total hpw (List.filter_sublist l)
  have hsub2 : List.Sublist ((l.filter p).filter p) ((l.mergeSort le).filter p) :=
    hsub.filter p
  have hself : (l.filter p).filter p = l.filter p :=
    List.filter_eq_self.mpr (fun a ha => (List.mem_filter.mp ha).2)
  rw [hself] at hsub2
  have hperm : List.Perm ((l.mergeSort le).filter p) (l.filter p) :=
    (List.mergeSort_perm l le).filter p
  exact (hsub2.eq_of_length hperm.length_eq.symm).symm

/-- C4: rendering with `sortByName = true` emits the groups with names in
non-decreasing lexicographic order and, within each group, the channels
with names likewise; both sorts are stable: the subsequence of groups
(resp. channels) carrying any fixed name is exactly as in the input.
`optStrLe` on two present names is string `≤`; the emitted sequence is
tied to the output by the first conjunct. -/
theorem sorted_render_order (pt : PlaylistType) (groups : List ChannelGroup)
    (proxy : SocketAddress) :
    playlistLines pt groups proxy true
      = "#EXTM3U" :: (sortGroups groups).flatMap (fun g =>
          (sortChannels g.channels).flatMap fun c =>
            [extinfLine g c, targetLine pt proxy c]) ∧
    List.Pairwise (fun a b : ChannelGroup => a.name ≤ b.name) (sortGroups groups) ∧
    (∀ n : String, (sortGroups groups).filter (fun g => decide (g.name = n))
      = groups.filter (fun g => decide (g.name = n))) ∧
    ∀ cs : List Channel,
      List.Pairwise (fun a b : Channel => optStrLe a.name b.name = true) (sortChannels cs) ∧
      ∀ n : Option String, (sortChannels cs).filter (fun c => decide (c.name = n))
        = cs.filter (fun c => decide (c.name = n)) := by
  refine ⟨by simp [playlistLines, orderedGroups, orderedChannels], ?_, ?_, ?_⟩
  · have h := List.sorted_mergeSort groupLe_trans groupLe_total groups
    exact h.imp (fun hab => by
      simpa only [groupLe, decide_eq_true_eq] using hab)
  · intro n
    refine filter_mergeSort_of_pairwise groupLe groupLe_trans groupLe_total _ _ ?_
    intro a ha b hb
    have h1 : a.name = n := of_decide_eq_true (List.mem_filter.mp ha).2
    have h2 : b.name = n := of_decide_eq_true (List.mem_filter.mp hb).2
    simp [groupLe, h1, h2]
  · intro cs
    constructor
    · exact List.sorted_mergeSort channelLe_trans channelLe_total cs
    · intro n
      refine filter_mergeSort_of_pairwise channelLe channelLe_trans channelLe_total _ _ ?_
      intro a ha b hb
      have h1 : a.name = n := of_decide_eq_true (List.mem_filter.mp ha).2
      have h2 : b.name = n := of_decide_eq_true (List.mem_filter.mp hb).2
      cases n with
      | none => simp [channelLe, optStrLe, h1, h2]
      | some s => simp [channelLe, optStrLe, h1, h2]

/-! ### Catalog construction (C6, C8) -/

theorem exceptBind_ok {α β : Type} (a : α) (f : α → Except PyErr β) :
    (Except.ok a >>= f) = f a := rfl

theorem exceptBind_error {α β : Type} (e : PyErr) (f : α → Except PyErr β) :
    ((Except.error e : Except PyErr α) >>= f) = .error e := rfl

theorem exceptPure {α : Type} (a : α) : (pure a : Except PyErr α) = .ok a := rfl

/-- Does a track sub-element provide a channel id
(an `extension` whose `{vlc}id` child is present)? -/
def subHasId : TrackSub → Bool
  | .extension (some _) => true
  | _ => false

/-- Is a track sub-element a `title` element? -/
def subIsTitle : TrackSub → Bool
  | .title _ => true
  | _ => false

/-- Is a track sub-element a `location` element? -/
def subIsLocation : TrackSub → Bool
  | .location _ => true
  | _ => false

theorem fold_id_of_no_id (subs : List TrackSub) :
    ∀ st st', subs.foldlM stepTrackSub st = .ok st' →
      (∀ s ∈ subs, subHasId s = false) → st'.1 = st.1 := by
  induction subs with
  | nil =>
    intro st st' h _
    simp only [List.foldlM_nil, exceptPure, Except.ok.injEq] at h
    rw [← h]
  | cons s rest ih =>
    intro st st' h hno
    rw [List.foldlM_cons] at h
    have hrest : ∀ x ∈ rest, subHasId x = false := fun x hx => hno x (List.mem_cons_of_mem s hx)
    cases s with
    | title t =>
      rw [show stepTrackSub st (.title t) = .ok (st.1, some (pyStrip t), st.2.2) from rfl,
        exceptBind_ok] at h
      exact ih (st.1, some (pyStrip t), st.2.2) st' h hrest
    | location t =>
      cases hp : parseLocation t with
      | error e =>
        rw [show stepTrackSub st (.location t) = Except.error e by
          simp [stepTrackSub, hp], exceptBind_error] at h
        cases h
      | ok a =>
        rw [show stepTrackSub st (.location t) = .ok (st.1, st.2.1, some a) by
          simp [stepTrackSub, hp], exceptBind_ok] at h
        exact ih (st.1, st.2.1, some a) st' h hrest
    | extension idText =>
      cases idText with
      | none =>
        rw [show stepTrackSub st (.extension none) = .ok st from rfl, exceptBind_ok] at h
        exact ih _ _ h hrest
      | some t =>
        have : subHasId (.extension (some t)) = false := hno _ (List.mem_cons_self _ _)
        simp [subHasId] at this
    | other =>
      rw [show stepTrackSub st .other = .ok st from rfl, exceptBind_ok] at h
      exact ih _ _ h hrest

theorem fold_name_of_no_title (subs : List TrackSub) :
    ∀ st st', subs.foldlM stepTrackSub st = .ok st' →
      (∀ s ∈ subs, subIsTitle s = false) → st'.2.1 = st.2.1 := by
  induction subs with
  | nil =>
    intro st st' h _
    simp only [List.foldlM_nil, exceptPure, Except.ok.injEq] at h
    rw [← h]
  | cons s rest ih =>
    intro st st' h hno
    rw [List.foldlM_cons] at h
    have hrest : ∀ x ∈ rest, subIsTitle x = false := fun x hx => hno x (List.mem_cons_of_mem s hx)
    cases s with
    | title t =>
      have : subIsTitle (.title t) = false := hno _ (List.mem_cons_self _ _)
      simp [subIsTitle] at this
    | location t =>
      cases hp : parseLocation t with
      | error e =>
        rw [show stepTrackSub st (.location t) = Except.error e by
          simp [stepTrackSub, hp], exceptBind_error] at h
        cases h
      | ok a =>
        rw [show stepTrackSub st (.location t) = .ok (st.1, st.2.1, some a) by
          simp [stepTrackSub, hp], exceptBind_ok] at h
        exact ih (st.1, st.2.1, some a) st' h hrest
    | extension idText =>
      cases idText with
      | none =>
        rw [show stepTrackSub st (.extension none) = .ok st from rfl, exceptBind_ok] at h
        exact ih _ _ h hrest
      | some t =>
        cases hn : pyInt t with
        | none =>
          rw [show stepTrackSub st (.extension (some t))
              = Except.error (.valueError "invalid literal for int") by
            simp [stepTrackSub, hn], exceptBind_error] at h
          cases h
        | some n =>
          rw [show stepTrackSub st (.extension (some t)) = .ok (some n, st.2.1, st.2.2) by
            simp [stepTrackSub, hn], exceptBind_ok] at h
          exact ih (some n, st.2.1, st.2.2) st' h hrest
    | other =>
      rw [show stepTrackSub st .other = .ok st from rfl, exceptBind_ok] at h
      exact ih _ _ h hrest

theorem fold_addr_of_no_location (subs : List TrackSub) :
    ∀ st st', subs.foldlM stepTrackSub st = .ok st' →
      (∀ s ∈ subs, subIsLocation s = false) → st'.2.2 = st.2.2 := by
  induction subs with
  | nil =>
    intro st st' h _
    simp only [List.foldlM_nil, exceptPure, Except.ok.injEq] at h
    rw [← h]
  | cons s rest ih =>
    intro st st' h hno
    rw [List.foldlM_cons] at h
    have hrest : ∀ x ∈ rest, subIsLocation x = false :=
      fun x hx => hno x (List.mem_cons_of_mem s hx)
    cases s with
    | title t =>
      rw [show stepTrackSub st (.title t) = .ok (st.1, some (pyStrip t), st.2.2) from rfl,
        exceptBind_ok] at h
      exact ih (st.1, some (pyStrip t), st.2.2) st' h hrest
    | location t =>
      have : subIsLocation (.location t) = false := hno _ (List.mem_cons_self _ _)
      simp [subIsLocation] at this
    | extension idText =>
      cases idText with
      | none =>
        rw [show stepTrackSub st (.extension none) = .ok st from rfl, exceptBind_ok] at h
        exact ih _ _ h hrest
      | some t =>
        cases hn : pyInt t with
        | none =>
          rw [show stepTrackSub st (.extension (some t))
              = Except.error (.valueError "invalid literal for int") by
            simp [stepTrackSub, hn], exceptBind_error] at h
          cases h
        | some n =>
          rw [show stepTrackSub st (.extension (some t)) = .ok (some n, st.2.1, st.2.2) by
            simp [stepTrackSub, hn], exceptBind_ok] at h
          exact ih (some n, st.2.1, st.2.2) st' h hrest
    | other =>
      rw [show stepTrackSub st .other = .ok st from rfl, exceptBind_ok] at h
      exact ih _ _ h hrest

theorem parseTrack_ok_shape (t : Track) (k : Option Int) (c : Channel)
    (h : parseTrack t = .ok (k, c)) :
    c.id = k ∧ t.subs.foldlM stepTrackSub (none, none, none) = .ok (k, c.name, c.address) := by
  unfold parseTrack at h
  cases hfold : t.subs.foldlM stepTrackSub (none, none, none) with
  | error e => rw [hfold, exceptBind_error] at h; cases h
  | ok st =>
    rw [hfold, exceptBind_ok] at h
    obtain ⟨st1, st2, st3⟩ := st
    simp only [Except.ok.injEq, Prod.mk.injEq] at h
    obtain ⟨h1, h2⟩ := h
    subst h1
    subst h2
    exact ⟨rfl, rfl⟩

theorem dictLookup_dictInsert (k k' : Option Int) (v : Channel)
    (d : List (Option Int × Channel)) :
    dictLookup k (dictInsert k' v d)
      = if k' = k then some v else dictLookup k d := by
  induction d with
  | nil =>
    by_cases h : k' = k <;> simp [dictInsert, dictLookup, h]
  | cons e t ih =>
    obtain ⟨ek, ev⟩ := e
    by_cases h1 : ek = k' <;> by_cases h2 : k' = k <;>
      simp_all [dictInsert, dictLookup]

theorem mapM_ok_forall₂ {α β : Type} (f : α → Except PyErr β) :
    ∀ (l : List α) (res : List β), l.mapM f = .ok res →
      List.Forall₂ (fun a b => f a = .ok b) l res := by
  intro l
  induction l with
  | nil =>
    intro res h
    simp only [List.mapM_nil, exceptPure, Except.ok.injEq] at h
    rw [← h]
    exact List.Forall₂.nil
  | cons a t ih =>
    intro res h
    rw [List.mapM_cons] at h
    cases ha : f a with
    | error e => rw [ha, exceptBind_error] at h; cases h
    | ok b =>
      rw [ha, exceptBind_ok] at h
      cases ht : t.mapM f with
      | error e => rw [ht, exceptBind_error] at h; cases h
      | ok bs =>
        rw [ht, exceptBind_ok] at h
        simp only [exceptPure, Except.ok.injEq] at h
        rw [← h]
        exact List.Forall₂.cons ha (ih bs ht)

theorem parse_fold_lookup (tracks : List Track) :
    ∀ (d res : List (Option Int × Channel)),
      tracks.foldlM (fun d t => do
        let kc ← parseTrack t
        .ok (dictInsert kc.1 kc.2 d)) d = .ok res →
      ∃ kcs, tracks.mapM parseTrack = .ok kcs ∧
        ∀ k, dictLookup k res
          = ((kcs.reverse.find? (fun kc => decide (kc.1 = k))).map Prod.snd).or
              (dictLookup k d) := by
  induction tracks with
  | nil =>
    intro d res h
    simp only [List.foldlM_nil, exceptPure, Except.ok.injEq] at h
    subst h
    exact ⟨[], rfl, fun k => by simp [Option.none_or]⟩
  | cons t ts ih =>
    intro d res h
    rw [List.foldlM_cons] at h
    cases hp : parseTrack t with
    | error e =>
      rw [hp] at h
      rw [show ((Except.error e : Except PyErr (Option Int × Channel)) >>= fun kc =>
        (Except.ok (dictInsert kc.1 kc.2 d) : Except PyErr (List (Option Int × Channel))))
          = .error e from rfl] at h
      cases h
    | ok kc =>
      rw [hp] at h
      rw [show ((Except.ok kc : Except PyErr (Option Int × Channel)) >>= fun kc =>
        (Except.ok (dictInsert kc.1 kc.2 d) : Except PyErr (List (Option Int × Channel))))
          = .ok (dictInsert kc.1 kc.2 d) from rfl] at h
      obtain ⟨kcs, hmap, hlook⟩ := ih (dictInsert kc.1 kc.2 d) res h
      refine ⟨kc :: kcs, ?_, ?_⟩
      · rw [List.mapM_cons, hp, exceptBind_ok, hmap, exceptBind_ok, exceptPure]
      · intro k
        rw [hlook k, List.reverse_cons, List.find?_append, dictLookup_dictInsert,
          Option.map_or', Option.or_assoc]
        by_cases hk : kc.1 = k
        · simp [List.find?, hk]
        · simp [List.find?, hk]

/-- C6: catalog construction inserts every track under its parsed id with
last-writer-wins semantics: the catalog's answer for any key (including
the `none` sentinel key of tracks whose extension id sub-element is
absent) is the channel of the last track that parsed to that key, and
each stored channel carries its key as its `id`; in particular a later
id-less track silently overwrites an earlier id-less one, and a repeated
real id silently overwrites the earlier channel. -/
theorem catalog_last_writer_wins (tracks : List Track)
    (cat : List (Option Int × Channel))
    (h : parse_channels_by_ids tracks = .ok cat) :
    ∃ kcs : List (Option Int × Channel),
      List.Forall₂ (fun t kc => parseTrack t = .ok kc ∧ kc.2.id = kc.1 ∧
        ((∀ s ∈ t.subs, subHasId s = false) → kc.1 = none)) tracks kcs ∧
      ∀ k, dictLookup k cat
        = (kcs.reverse.find? (fun kc => decide (kc.1 = k))).map Prod.snd := by
  obtain ⟨kcs, hmap, hlook⟩ := parse_fold_lookup tracks [] cat h
  refine ⟨kcs, ?_, ?_⟩
  · refine (mapM_ok_forall₂ parseTrack tracks kcs hmap).imp ?_
    intro t kc hr
    have hshape := parseTrack_ok_shape t kc.1 kc.2 hr
    exact ⟨hr, hshape.1,
      fun hno => fold_id_of_no_id t.subs (none, none, none)
        (kc.1, kc.2.name, kc.2.address) hshape.2 hno⟩
  · intro k
    rw [hlook k]
    simp [dictLookup, Option.or_none]

/-- Witness for C6: two id-less tracks collapse to one catalog entry
under the `none` key, holding the second track's channel. -/
theorem catalog_last_writer_wins_witness :
    ∃ kcs : List (Option Int × Channel),
      List.Forall₂ (fun t kc => parseTrack t = .ok kc ∧ kc.2.id = kc.1 ∧
        ((∀ s ∈ t.subs, subHasId s = false) → kc.1 = none))
        [⟨[TrackSub.title "A"]⟩, ⟨[TrackSub.title "B"]⟩] kcs ∧
      ∀ k, dictLookup k [(none, ⟨none, some "B", none⟩)]
        = (kcs.reverse.find? (fun kc => decide (kc.1 = k))).map Prod.snd :=
  catalog_last_writer_wins [⟨[TrackSub.title "A"]⟩, ⟨[TrackSub.title "B"]⟩]
    [(none, ⟨none, some "B", none⟩)] (by rfl)

/-- Counterexample to C8: a track with no `title` and no `location`
sub-element does not make catalog construction fail; it yields a
Channel whose name and address are absent. -/
theorem track_missing_subelements_accepted :
    parse_channels_by_ids [⟨[TrackSub.extension (some "5")]⟩]
      = .ok [(some 5, ⟨some 5, none, none⟩)] := by
  rfl

/-- C8 as amended: when a track parses successfully, a missing `title`
sub-element leaves the stored channel's name absent (`none`), and a
missing `location` sub-element leaves its address absent — the parser
does not fail on missing sub-elements, it produces a record with absent
fields. -/
theorem track_missing_fields_yield_none (t : Track) (k : Option Int) (c : Channel)
    (h : parseTrack t = .ok (k, c)) :
    ((∀ s ∈ t.subs, subIsTitle s = false) → c.name = none) ∧
    ((∀ s ∈ t.subs, subIsLocation s = false) → c.address = none) := by
  obtain ⟨hid, hfold⟩ := parseTrack_ok_shape t k c h
  exact ⟨fun hno => fold_name_of_no_title t.subs _ _ hfold hno,
         fun hno => fold_addr_of_no_location t.subs _ _ hfold hno⟩

/-- Witness for the amended C8 at the concrete extension-only track. -/
theorem track_missing_fields_yield_none_witness :
    ((∀ s ∈ (Track.mk [TrackSub.extension (some "5")]).subs, subIsTitle s = false) →
      (Channel.mk (some 5) none none).name = none) ∧
    ((∀ s ∈ (Track.mk [TrackSub.extension (some "5")]).subs, subIsLocation s = false) →
      (Channel.mk (some 5) none none).address = none) :=
  track_missing_fields_yield_none ⟨[TrackSub.extension (some "5")]⟩ (some 5)
    ⟨some 5, none, none⟩ (by rfl)

/-! ### Group building and the orchestrator (C1) -/

theorem items_mapM_ok (catalog : List (Option Int × Channel))
    (items : List GroupItemElem)
    (h : ∀ it ∈ items, ∃ c, resolveItem catalog it = .ok c) :
    ∃ cs, items.mapM (resolveItem catalog) = .ok cs := by
  induction items with
  | nil => exact ⟨[], rfl⟩
  | cons it rest ih =>
    obtain ⟨c, hc⟩ := h it (List.mem_cons_self _ _)
    obtain ⟨cs, hcs⟩ := ih (fun x hx => h x (List.mem_cons_of_mem it hx))
    exact ⟨c :: cs, by rw [List.mapM_cons, hc, exceptBind_ok, hcs, exceptBind_ok, exceptPure]⟩

theorem items_mapM_keyError (catalog : List (Option Int × Channel))
    (items : List GroupItemElem)
    (hall : ∀ it ∈ items, (pyInt it.tid).isSome)
    (hbad : ∃ it ∈ items, dictLookup (pyInt it.tid) catalog = none) :
    ∃ n, items.mapM (resolveItem catalog) = .error (.keyError n) := by
  induction items with
  | nil => obtain ⟨it, hit, _⟩ := hbad; cases hit
  | cons it rest ih =>
    obtain ⟨n, hn⟩ := Option.isSome_iff_exists.mp (hall it (List.mem_cons_self _ _))
    by_cases hl : dictLookup (some n) catalog = none
    · refine ⟨some n, ?_⟩
      rw [List.mapM_cons,
        show resolveItem catalog it = .error (.keyError (some n)) by
          simp [resolveItem, hn, hl],
        exceptBind_error]
    · obtain ⟨c, hc⟩ := Option.ne_none_iff_exists'.mp hl
      have hresolve : resolveItem catalog it = .ok c := by simp [resolveItem, hn, hl, hc]
      have hbad' : ∃ x ∈ rest, dictLookup (pyInt x.tid) catalog = none := by
        obtain ⟨x, hx, hxl⟩ := hbad
        rcases List.mem_cons.mp hx with heq | hmem
        · subst heq; rw [hn] at hxl; exact absurd hxl hl
        · exact ⟨x, hmem, hxl⟩
      obtain ⟨n', hn'⟩ := ih (fun x hx => hall x (List.mem_cons_of_mem it hx)) hbad'
      exact ⟨n', by rw [List.mapM_cons, hresolve, exceptBind_ok, hn', exceptBind_error]⟩

theorem groups_mapM_keyError (catalog : List (Option Int × Channel))
    (ges : List GroupElem)
    (hall : ∀ ge ∈ ges, ∀ it ∈ ge.items, (pyInt it.tid).isSome)
    (hbad : ∃ ge ∈ ges, ∃ it ∈ ge.items, dictLookup (pyInt it.tid) catalog = none) :
    ∃ n, parse_channel_groups ges catalog = .error (.keyError n) := by
  induction ges with
  | nil => obtain ⟨ge, hge, _⟩ := hbad; cases hge
  | cons ge rest ih =>
    by_cases hh : ∃ it ∈ ge.items, dictLookup (pyInt it.tid) catalog = none
    · obtain ⟨n, hn⟩ := items_mapM_keyError catalog ge.items
        (hall ge (List.mem_cons_self _ _)) hh
      refine ⟨n, ?_⟩
      unfold parse_channel_groups
      rw [List.mapM_cons,
        show parseGroupElem catalog ge = .error (.keyError n) by
          unfold parseGroupElem
          rw [hn, exceptBind_error],
        exceptBind_error]
    · have hok : ∀ it ∈ ge.items, ∃ c, resolveItem catalog it = .ok c := by
        intro it hit
        obtain ⟨n, hn⟩ := Option.isSome_iff_exists.mp (hall ge (List.mem_cons_self _ _) it hit)
        have hl : dictLookup (some n) catalog ≠ none := by
          intro hcontra
          exact hh ⟨it, hit, by rw [hn]; exact hcontra⟩
        obtain ⟨c, hc⟩ := Option.ne_none_iff_exists'.mp hl
        exact ⟨c, by simp [resolveItem, hn, hc]⟩
      obtain ⟨cs, hcs⟩ := items_mapM_ok catalog ge.items hok
      have hge : parseGroupElem catalog ge = .ok ⟨pyStrip ge.title, cs⟩ := by
        unfold parseGroupElem
        rw [hcs, exceptBind_ok]
      have hbad' : ∃ g ∈ rest, ∃ it ∈ g.items, dictLookup (pyInt it.tid) catalog = none := by
        obtain ⟨g, hg, hgbad⟩ := hbad
        rcases List.mem_cons.mp hg with heq | hmem
        · subst heq; exact absurd hgbad hh
        · exact ⟨g, hmem, hgbad⟩
      obtain ⟨n, hn⟩ := ih (fun g hg => hall g (List.mem_cons_of_mem ge hg)) hbad'
      refine ⟨n, ?_⟩
      unfold parse_channel_groups
      rw [List.mapM_cons, hge, exceptBind_ok]
      unfold parse_channel_groups at hn
      rw [hn, exceptBind_error]

/-- C1: when some group membership entry's `tid` parses to an integer
that is not a key of the catalog (`hall`: every `tid` parses — the
claim's premise speaks of each `tid`'s integer value), building the
groups fails with a `KeyError` lookup failure, and the whole run aborts
with that error: `mainModel` returns no (name, content) write list, so
neither output file is created or modified. -/
theorem groups_lookup_failure_aborts (doc : Doc) (host : String) (port : Int)
    (mName uName : String) (sortByName : Bool)
    (cat : List (Option Int × Channel))
    (hcat : parse_channels_by_ids doc.tracks = .ok cat)
    (hall : ∀ ge ∈ doc.groupElems, ∀ it ∈ ge.items, (pyInt it.tid).isSome)
    (hbad : ∃ ge ∈ doc.groupElems, ∃ it ∈ ge.items, dictLookup (pyInt it.tid) cat = none) :
    ∃ n, parse_channel_groups doc.groupElems cat = .error (.keyError n) ∧
      mainModel doc host port mName uName sortByName = .error (.keyError n) := by
  obtain ⟨n, hn⟩ := groups_mapM_keyError cat doc.groupElems hall hbad
  refine ⟨n, hn, ?_⟩
  unfold mainModel
  rw [hcat, exceptBind_ok, hn, exceptBind_error]

/-- Witness for C1: a document whose only group references `tid` 2
against an empty catalog aborts with a `KeyError` and writes nothing. -/
theorem groups_lookup_failure_aborts_witness :
    ∃ n, parse_channel_groups [⟨"G", [⟨"2"⟩]⟩] [] = .error (.keyError n) ∧
      mainModel ⟨[], [⟨"G", [⟨"2"⟩]⟩]⟩ "proxy" 80 "m.m3u" "u.m3u" false
        = .error (.keyError n) :=
  groups_lookup_failure_aborts ⟨[], [⟨"G", [⟨"2"⟩]⟩]⟩ "proxy" 80 "m.m3u" "u.m3u"
    false [] (by rfl) (by decide) (by decide)

/-! ### Location parsing (C7) -/

theorem splitFirst_eq_none_iff (c : Char) (l : List Char) :
    splitFirst c l = none ↔ c ∉ l := by
  induction l with
  | nil => simp [splitFirst]
  | cons x xs ih =>
    by_cases h : x = c
    · subst h
      simp [splitFirst]
    · have hcx : ¬ c = x := fun e => h e.symm
      simp [splitFirst, h, Option.map_eq_none', ih, List.mem_cons, hcx]

theorem splitFirst_append (c : Char) (pre rest : List Char) (h : c ∉ pre) :
    splitFirst c (pre ++ c :: rest) = some (pre, rest) := by
  induction pre with
  | nil => simp [splitFirst]
  | cons x xs ih =>
    have hx : ¬ (x = c) := fun e => h (e ▸ List.mem_cons_self x xs)
    have hxs : c ∉ xs := fun e => h (List.mem_cons_of_mem x e)
    simp [splitFirst, hx, ih hxs]

/-- Counterexample to C7 as stated: the location
`rtp://@239.1.1.1:-1` has a port text (`-1`) that is not a valid
non-negative integer, yet the parse succeeds (Python's `int` accepts a
signed literal), yielding port `-1 < 0`. -/
theorem location_negative_port_accepted :
    parseLocation "rtp://@239.1.1.1:-1" = .ok ⟨"239.1.1.1", -1⟩ ∧
    ¬ (0 ≤ (-1 : Int)) := ⟨by rfl, by decide⟩

/-- C7 as amended: the location text is split on the first `@`
(everything before it discarded) and the remainder on the first `:`;
the parse succeeds exactly when the port text is a valid, optionally
signed, integer literal in the sense of Python `int` (so negative ports
are accepted), and a location with no `@`, no `:`, or a port text that
is not such an integer is a fatal parse error. -/
theorem location_parse_characterization (s : String) :
    (('@' ∉ s.data) → parseLocation s = .error .indexError) ∧
    ∀ pre rest : List Char, s.data = pre ++ '@' :: rest → '@' ∉ pre →
      ((':' ∉ rest) → parseLocation s = .error (.valueError "not enough values to unpack")) ∧
      ∀ hs ps : List Char, rest = hs ++ ':' :: ps → ':' ∉ hs →
        (pyIntList ps = none →
          parseLocation s = .error (.valueError "invalid literal for int")) ∧
        ∀ n : Int, pyIntList ps = some n → parseLocation s = .ok ⟨⟨hs⟩, n⟩ := by
  constructor
  · intro hno
    simp only [parseLocation, (splitFirst_eq_none_iff '@' s.data).mpr hno]
  · intro pre rest hdec hpre
    have hsplit : splitFirst '@' s.data = some (pre, rest) := by
      rw [hdec]; exact splitFirst_append _ _ _ hpre
    constructor
    · intro hnoc
      simp only [parseLocation, hsplit, (splitFirst_eq_none_iff ':' rest).mpr hnoc]
    · intro hs ps hdec2 hhs
      have hsplit2 : splitFirst ':' rest = some (hs, ps) := by
        rw [hdec2]; exact splitFirst_append _ _ _ hhs
      constructor
      · intro hpno
        simp only [parseLocation, hsplit, hsplit2, hpno]
      · intro n hpn
        simp only [parseLocation, hsplit, hsplit2, hpn]

/-- Witness for the amended C7 at a concrete well-formed location. -/
theorem location_parse_characterization_witness :
    parseLocation "udp://@h:12" = .ok ⟨"h", 12⟩ :=
  ((((location_parse_characterization "udp://@h:12").2
      "udp://".data "h:12".data (by rfl) (by decide)).2
    "h".data "12".data (by rfl) (by decide)).2 12 (by rfl))

/-! ### Relation between the two render modes (C10) -/

/-- Two lines at the same position of the multicast and unicast outputs:
either identical, or a multicast target facing a unicast target. -/
def targetish (a b : String) : Prop :=
  a = b ∨ ((∃ r, a = "udp://@" ++ r) ∧ ∃ r, b = "http://" ++ r)

theorem forall₂_append {α : Type} {R : α → α → Prop} :
    ∀ {l₁ l₂ u₁ u₂ : List α}, List.Forall₂ R l₁ l₂ → List.Forall₂ R u₁ u₂ →
      List.Forall₂ R (l₁ ++ u₁) (l₂ ++ u₂) := by
  intro l₁ l₂ u₁ u₂ h hu
  induction h with
  | nil => exact hu
  | cons hr _ ih => exact List.Forall₂.cons hr ih

theorem targetish_targetLine (proxy : SocketAddress) (c : Channel) :
    targetish (targetLine .MULTICAST proxy c) (targetLine .UNICAST proxy c) := by
  refine Or.inr ⟨⟨pyStrOfOptAddr c.address, rfl⟩,
    ⟨proxy.str ++ ("/udp/" ++ pyStrOfOptAddr c.address), ?_⟩⟩
  simp [targetLine, String.append_assoc]

theorem forall₂_targetish_flatMapChannels (proxy : SocketAddress)
    (g : ChannelGroup) (cs : List Channel) :
    List.Forall₂ targetish
      (cs.flatMap fun c => [extinfLine g c, targetLine .MULTICAST proxy c])
      (cs.flatMap fun c => [extinfLine g c, targetLine .UNICAST proxy c]) := by
  induction cs with
  | nil => exact List.Forall₂.nil
  | cons c t ih =>
    rw [List.flatMap_cons, List.flatMap_cons]
    exact forall₂_append
      (List.Forall₂.cons (Or.inl rfl)
        (List.Forall₂.cons (targetish_targetLine proxy c) List.Forall₂.nil)) ih

theorem forall₂_targetish_flatMapGroups (proxy : SocketAddress) (s : Bool)
    (gs : List ChannelGroup) :
    List.Forall₂ targetish
      (gs.flatMap fun g => (orderedChannels g.channels s).flatMap fun c =>
        [extinfLine g c, targetLine .MULTICAST proxy c])
      (gs.flatMap fun g => (orderedChannels g.channels s).flatMap fun c =>
        [extinfLine g c, targetLine .UNICAST proxy c]) := by
  induction gs with
  | nil => exact List.Forall₂.nil
  | cons g t ih =>
    rw [List.flatMap_cons, List.flatMap_cons]
    exact forall₂_append (forall₂_targetish_flatMapChannels proxy g _) ih

theorem forall₂_targetish_lines (groups : List ChannelGroup)
    (proxy : SocketAddress) (s : Bool) :
    List.Forall₂ targetish (playlistLines .MULTICAST groups proxy s)
      (playlistLines .UNICAST groups proxy s) :=
  List.Forall₂.cons (Or.inl rfl) (forall₂_targetish_flatMapGroups proxy s _)

theorem forall₂_get? {α : Type} {R : α → α → Prop} :
    ∀ {l₁ l₂ : List α}, List.Forall₂ R l₁ l₂ → ∀ i : Nat,
      (l₁[i]? = none ∧ l₂[i]? = none) ∨
      ∃ a b, l₁[i]? = some a ∧ l₂[i]? = some b ∧ R a b := by
  intro l₁ l₂ h
  induction h with
  | nil => intro i; exact Or.inl ⟨rfl, rfl⟩
  | @cons a b t₁ t₂ hr _ ih =>
    intro i
    cases i with
    | zero => exact Or.inr ⟨a, b, by simp, by simp, hr⟩
    | succ j => simpa using ih j

/-- C10: for the same (groups, proxyAddress, sortByName) the MULTICAST
and the UNICAST renders emit the same number of lines, with an identical
header line, lines at each position either identical or a pair of
target-address lines (`udp://@…` facing `http://…`), and any line
starting with `#` (the header and every `#EXTINF` line) identical at
the same position in both outputs. -/
theorem modes_differ_only_in_targets (groups : List ChannelGroup)
    (proxy : SocketAddress) (s : Bool) :
    (playlistLines .MULTICAST groups proxy s).length
      = (playlistLines .UNICAST groups proxy s).length ∧
    (playlistLines .MULTICAST groups proxy s).head?
      = (playlistLines .UNICAST groups proxy s).head? ∧
    (∀ i : Nat,
      (playlistLines .MULTICAST groups proxy s)[i]?
        = (playlistLines .UNICAST groups proxy s)[i]? ∨
      ∃ a b, (playlistLines .MULTICAST groups proxy s)[i]? = some a ∧
        (playlistLines .UNICAST groups proxy s)[i]? = some b ∧
        (∃ r, a = "udp://@" ++ r) ∧ ∃ r, b = "http://" ++ r) ∧
    ∀ i : Nat, ∀ a : String,
      (playlistLines .MULTICAST groups proxy s)[i]? = some a →
      a.data.head? = some '#' →
      (playlistLines .UNICAST groups proxy s)[i]? = some a := by
  have hf := forall₂_targetish_lines groups proxy s
  have hidx := forall₂_get? hf
  refine ⟨hf.length_eq, rfl, ?_, ?_⟩
  · intro i
    rcases hidx i with ⟨h1, h2⟩ | ⟨a, b, h1, h2, hr⟩
    · exact Or.inl (h1.trans h2.symm)
    · rcases hr with heq | ⟨hm, hu⟩
      · subst heq; exact Or.inl (h1.trans h2.symm)
      · exact Or.inr ⟨a, b, h1, h2, hm, hu⟩
  · intro i a ha hhash
    rcases hidx i with ⟨h1, _⟩ | ⟨a', b, h1, h2, hr⟩
    · rw [ha] at h1; cases h1
    · rw [ha] at h1
      injection h1 with h1
      subst h1
      rcases hr with heq | ⟨⟨r, hm⟩, _⟩
      · rw [h2, heq]
      · rw [hm] at hhash
        rw [show (("udp://@" ++ r).data.head? : Option Char) = some 'u' from rfl] at hhash
        cases hhash

/-- Witness for C10: at a concrete model, the `#EXTINF` line at
position 1 of the multicast output appears identically at position 1 of
the unicast output. -/
theorem modes_differ_only_in_targets_witness :
    (playlistLines .UNICAST [⟨"G", [⟨some 1, some "X", some ⟨"h", 1⟩⟩]⟩]
      ⟨"p", 80⟩ false)[1]? = some "#EXTINF:0 group-title=\"G\",X" :=
  (modes_differ_only_in_targets [⟨"G", [⟨some 1, some "X", some ⟨"h", 1⟩⟩]⟩]
      ⟨"p", 80⟩ false).2.2.2 1 "#EXTINF:0 group-title=\"G\",X" (by rfl) (by rfl)

end Weburg
